import Mathlib

/-!
# Verification of the folder/tag rule-matching and transformation core

Shallow embedding of the rule-matching engine (`src/engine/ruleMatcher.ts`),
the pattern utilities (`src/transformers/regexTransformers.ts`), the text
transformers (`caseTransformers.ts`, `emojiTransformers.ts`,
`numberTransformers.ts`) and the transformation pipeline (`pipeline.ts`)
of the obsidian-folder-tag-sync repository.

Modelling conventions:
* JavaScript strings are Lean `String`s; the transformers are implemented on
  `List Char` and wrapped.
* JavaScript numbers are modelled as exact rationals (`ℚ`).  The only
  arithmetic performed by the embedded code is small additions,
  multiplications and one division; `ℚ` division by zero yields 0 where
  JavaScript would produce `Infinity` (this is only reachable for an empty
  input string, and no claim distinguishes the two since the result is
  clamped into `[0,1]` either way).
* JavaScript `RegExp` is modelled by a small executable regex engine
  (character classes, groups, alternation, `*`/`+`/`?`, `.`, `^`/`$`
  anchoring, `i` case-folding for ASCII) with Brzozowski-derivative
  matching.  This covers every regular expression the embedded code
  builds or that the verified claims exercise.  `RegExp` construction
  failure (a thrown `SyntaxError`) is modelled by the compiler returning
  `none`.  Global replacement is leftmost, maximal-munch and
  non-overlapping, which coincides with JavaScript's behaviour on all
  patterns appearing in the embedded code and claims; `$n` capture
  references in replacement strings are not interpreted (no verified
  claim uses them).
-/

namespace FolderTagSync

/-! ## Character primitives (JavaScript semantics) -/

/-- The characters matched by JavaScript's `\s` (the ones relevant to this
    code base; the full ECMAScript white-space and line-terminator set). -/
def isJsWs (c : Char) : Bool :=
  let n := c.toNat
  n = 32 || n = 9 || n = 10 || n = 13 || n = 11 || n = 12 ||
  n = 160 || n = 5760 || (8192 <= n && n <= 8202) ||
  n = 8232 || n = 8233 || n = 8239 || n = 8287 || n = 12288 || n = 65279

def isDigitC (c : Char) : Bool := 48 <= c.toNat && c.toNat <= 57

def isUpperAZ (c : Char) : Bool := 65 <= c.toNat && c.toNat <= 90

def isLowerAZ (c : Char) : Bool := 97 <= c.toNat && c.toNat <= 122

/-- JavaScript `\w`: `[A-Za-z0-9_]`. -/
def isWordC (c : Char) : Bool := isUpperAZ c || isLowerAZ c || isDigitC c || c = '_'

/-- ASCII lower-casing, as performed by `toLowerCase` on the strings this
    code manipulates. -/
def lowerC (c : Char) : Char := if isUpperAZ c then Char.ofNat (c.toNat + 32) else c

/-- ASCII upper-casing (`toUpperCase`). -/
def upperC (c : Char) : Char := if isLowerAZ c then Char.ofNat (c.toNat - 32) else c

def swapCaseC (c : Char) : Char :=
  if isUpperAZ c then lowerC c else if isLowerAZ c then upperC c else c

/-- Characters excluded by JavaScript's `.` (dot): the line terminators. -/
def isDotC (c : Char) : Bool :=
  let n := c.toNat
  !(n = 10 || n = 13 || n = 8232 || n = 8233)

/-- JavaScript `String.prototype.trim` on a character list. -/
def trimChars (l : List Char) : List Char :=
  ((l.dropWhile isJsWs).reverse.dropWhile isJsWs).reverse

/-! ## Regex engine

A character-class-based regular-expression datatype with
Brzozowski-derivative matching.  `CS` is a character class: a list of
inclusive ranges, an optional negation flag and an optional
case-insensitivity flag (flag `i`). -/

structure CS where
  neg : Bool
  ci : Bool
  ranges : List (Char × Char)
deriving Repr, DecidableEq

def CS.mem (cs : CS) (c : Char) : Bool :=
  let inR := fun (ch : Char) => cs.ranges.any (fun p => p.1 ≤ ch && ch ≤ p.2)
  let base := inR c || (cs.ci && inR (swapCaseC c))
  if cs.neg then !base else base

inductive RE where
  | emp : RE
  | eps : RE
  | cls : CS → RE
  | cat : RE → RE → RE
  | alt : RE → RE → RE
  | star : RE → RE
deriving Repr, DecidableEq

def RE.nullable : RE → Bool
  | .emp => false
  | .eps => true
  | .cls _ => false
  | .cat a b => a.nullable && b.nullable
  | .alt a b => a.nullable || b.nullable
  | .star _ => true

def RE.deriv : RE → Char → RE
  | .emp, _ => .emp
  | .eps, _ => .emp
  | .cls cs, c => if cs.mem c then .eps else .emp
  | .cat a b, c =>
      if a.nullable then .alt (.cat (a.deriv c) b) (b.deriv c)
      else .cat (a.deriv c) b
  | .alt a b, c => .alt (a.deriv c) (b.deriv c)
  | .star a, c => .cat (a.deriv c) (.star a)

/-- Whole-list matching via derivatives. -/
def matchesL (r : RE) : List Char → Bool
  | [] => r.nullable
  | c :: t => matchesL (r.deriv c) t

/-- The class matching any character at all (used for the implicit
    unanchored scan of `RegExp.prototype.test`). -/
def anyC : RE := .cls ⟨true, false, []⟩

/-- Longest prefix of `l` matched by `r` (maximal munch). -/
def maxPrefixAux (r : RE) (l : List Char) (idx : Nat) (best : Option Nat) : Option Nat :=
  let best1 := if r.nullable then some idx else best
  match l with
  | [] => best1
  | c :: t => maxPrefixAux (r.deriv c) t (idx + 1) best1

def maxPrefixLen (r : RE) (l : List Char) : Option Nat :=
  maxPrefixAux r l 0 none

/-! ### Parsing regex source strings

A fuel-indexed recursive-descent parser for the regex subset used by the
embedded code: literals, escapes, `.`, character classes with ranges and
negation, `(?:...)` and capturing groups (treated alike; only the match
extent is ever used), alternation, and the `*` `+` `?` quantifiers.
Leading `^` and trailing `$` are recognised at top level.  Anything
outside the subset makes compilation fail, which is only ever used on
strings the claims exercise (all of which are inside the subset). -/

def digitCS : List (Char × Char) := [('0', '9')]

def wordCS : List (Char × Char) := [('A', 'Z'), ('a', 'z'), ('0', '9'), ('_', '_')]

def wsCS : List (Char × Char) :=
  [(' ', ' '), ('\t', '\t'), ('\n', '\n'), ('\r', '\r'), ('\x0b', '\x0b'),
   ('\x0c', '\x0c'), (' ', ' '), (' ', ' '),
   (' ', ' '), (' ', ' '), (' ', ' '),
   (' ', ' '), (' ', ' '), ('　', '　'),
   ('﻿', '﻿')]

def dotCS : List (Char × Char) :=
  [('\n', '\n'), ('\r', '\r'), (' ', ' '), (' ', ' ')]

/-- Parse the members of a character class up to the closing `]`. -/
def parseClassItems (ci : Bool) : Nat → List Char → List (Char × Char) →
    Option (List (Char × Char) × List Char)
  | 0, _, _ => none
  | _ + 1, [], _ => none
  | fuel + 1, c :: t, acc =>
    if c = ']' then some (acc, t)
    else
      match c, t with
      | '\\', 'd' :: t2 => parseClassItems ci fuel t2 (acc ++ digitCS)
      | '\\', 'w' :: t2 => parseClassItems ci fuel t2 (acc ++ wordCS)
      | '\\', 's' :: t2 => parseClassItems ci fuel t2 (acc ++ wsCS)
      | '\\', e :: t2 => parseClassItems ci fuel t2 (acc ++ [(e, e)])
      | _, '-' :: e2 :: t2 =>
        if e2 = ']' then parseClassItems ci fuel ('-' :: e2 :: t2) (acc ++ [(c, c)])
        else parseClassItems ci fuel t2 (acc ++ [(c, e2)])
      | _, _ => parseClassItems ci fuel t (acc ++ [(c, c)])

mutual

/-- Alternation level: `seq ('|' seq)*`. -/
def parseAltRe (ci : Bool) : Nat → List Char → Option (RE × List Char)
  | 0, _ => none
  | fuel + 1, l =>
    match parseSeqRe ci fuel l with
    | none => none
    | some (r, rest) =>
      match rest with
      | '|' :: t =>
        match parseAltRe ci fuel t with
        | some (r2, rest2) => some (.alt r r2, rest2)
        | none => none
      | _ => some (r, rest)

/-- Sequence level: a run of suffixed atoms; the empty sequence is `eps`. -/
def parseSeqRe (ci : Bool) : Nat → List Char → Option (RE × List Char)
  | 0, _ => none
  | fuel + 1, l =>
    match l with
    | [] => some (.eps, [])
    | ')' :: _ => some (.eps, l)
    | '|' :: _ => some (.eps, l)
    | _ =>
      match parseAtomRe ci fuel l with
      | none => none
      | some (r, rest) =>
        let (r1, rest1) :=
          match rest with
          | '*' :: t => (RE.star r, t)
          | '+' :: t => (RE.cat r (RE.star r), t)
          | '?' :: t => (RE.alt r RE.eps, t)
          | _ => (r, rest)
        match parseSeqRe ci fuel rest1 with
        | none => none
        | some (r2, rest2) => some (.cat r1 r2, rest2)

/-- Atom level. -/
def parseAtomRe (ci : Bool) : Nat → List Char → Option (RE × List Char)
  | 0, _ => none
  | fuel + 1, l =>
    match l with
    | [] => none
    | '(' :: t =>
      let t1 := match t with
        | '?' :: ':' :: t2 => t2
        | _ => t
      match parseAltRe ci fuel t1 with
      | some (r, ')' :: rest) => some (r, rest)
      | _ => none
    | '[' :: t =>
      let (neg, t1) := match t with
        | '^' :: t2 => (true, t2)
        | _ => (false, t)
      match parseClassItems ci fuel t1 [] with
      | some (items, rest) => some (.cls ⟨neg, ci, items⟩, rest)
      | none => none
    | '\\' :: e :: t =>
      match e with
      | 'd' => some (.cls ⟨false, false, digitCS⟩, t)
      | 'D' => some (.cls ⟨true, false, digitCS⟩, t)
      | 'w' => some (.cls ⟨false, false, wordCS⟩, t)
      | 'W' => some (.cls ⟨true, false, wordCS⟩, t)
      | 's' => some (.cls ⟨false, false, wsCS⟩, t)
      | 'S' => some (.cls ⟨true, false, wsCS⟩, t)
      | 'b' => none
      | 'B' => none
      | _ => some (.cls ⟨false, ci, [(e, e)]⟩, t)
    | '.' :: t => some (.cls ⟨true, false, dotCS⟩, t)
    | '*' :: _ => none
    | '+' :: _ => none
    | '?' :: _ => none
    | '^' :: _ => none
    | '$' :: _ => none
    | '\\' :: [] => none
    | c :: t => some (.cls ⟨false, ci, [(c, c)]⟩, t)

end

/-- A compiled `RegExp`: body, anchoring, and the `g` flag. -/
structure CompiledRe where
  re : RE
  anchS : Bool
  anchE : Bool
  global : Bool
deriving Repr, DecidableEq

/-- Model of `new RegExp(pattern, flags)`; `none` models a thrown
    `SyntaxError`.  The parser fuel is ample for any input. -/
def compileRegex (pattern : String) (flags : String) : Option CompiledRe :=
  let ci := flags.data.contains 'i'
  let g := flags.data.contains 'g'
  let l := pattern.data
  let p1 := match l with
    | '^' :: t => (true, t)
    | _ => (false, l)
  let p2 :=
    if p1.2.getLast? = some '$' && !(p1.2.dropLast.getLast? = some '\\') then
      (true, p1.2.dropLast)
    else (false, p1.2)
  match parseAltRe ci (4 * pattern.length + 8) p2.2 with
  | some (r, []) => some ⟨r, p1.1, p2.1, g⟩
  | _ => none

/-- Model of `RegExp.prototype.test` (unanchored search unless the
    pattern carries `^`/`$`). -/
def testRe (c : CompiledRe) (s : String) : Bool :=
  let r := match c.anchS, c.anchE with
    | true, true => c.re
    | true, false => RE.cat c.re (RE.star anyC)
    | false, true => RE.cat (RE.star anyC) c.re
    | false, false => RE.cat (RE.star anyC) (RE.cat c.re (RE.star anyC))
  matchesL r s.data

/-- The match extent at the current position: with `$` the match must
    reach the end of the string; otherwise the longest match. -/
def bestMatchAt (re : RE) (anchE : Bool) (l : List Char) : Option Nat :=
  if anchE then (if matchesL re l then some l.length else none)
  else maxPrefixLen re l

/-- Scan for `String.prototype.replace`: leftmost, non-overlapping;
    an empty match consumes the replacement and advances one character.
    `active` is false once a non-global replace has fired. -/
def replScan (re : RE) (anchE : Bool) (repl : List Char) (global : Bool) :
    Nat → Bool → List Char → List Char
  | 0, _, l => l
  | _ + 1, active, [] =>
    if active && re.nullable then repl else []
  | fuel + 1, active, c :: t =>
    if active then
      match bestMatchAt re anchE (c :: t) with
      | some 0 => repl ++ c :: replScan re anchE repl global fuel global t
      | some (k + 1) => repl ++ replScan re anchE repl global fuel global ((c :: t).drop (k + 1))
      | none => c :: replScan re anchE repl global fuel active t
    else c :: t

/-- Model of `input.replace(regex, repl)` (literal replacement text). -/
def jsReplace (c : CompiledRe) (repl : String) (input : String) : String :=
  if c.anchS then
    match bestMatchAt c.re c.anchE input.data with
    | some k => ⟨repl.data ++ input.data.drop k⟩
    | none => input
  else ⟨replScan c.re c.anchE repl.data c.global (input.length + 1) true input.data⟩

/-! ## regexTransformers.ts -/

/-- `RegexTransform` from `types/settings`: `{pattern, replacement, flags?}`. -/
structure RegexTransform where
  pattern : String
  replacement : String
  flags : Option String := none
deriving Repr, DecidableEq

/-- `applyRegexTransform`: compiles `pattern` with the given flags
    (defaulting to `'g'`, the JS `transform.flags || 'g'` — `undefined`
    and `""` are both falsy) and replaces; on a compilation error the
    original input is returned (the `catch` branch). -/
def applyRegexTransform (input : String) (t : RegexTransform) : String :=
  let fl := match t.flags with
    | none => "g"
    | some "" => "g"
    | some f => f
  match compileRegex t.pattern fl with
  | none => input
  | some c => jsReplace c t.replacement input

/-- `applyRegexTransforms`: sequential fold over the transform list. -/
def applyRegexTransforms (input : String) (ts : List RegexTransform) : String :=
  ts.foldl applyRegexTransform input

/-- `matchesPattern(input, pattern, flags?)`: compiles the pattern as a raw
    regular expression and tests it (unanchored); `false` on a compilation
    error (the `catch` branch). -/
def matchesPattern (input : String) (pattern : String) (flags : Option String) : Bool :=
  match compileRegex pattern (flags.getD "") with
  | none => false
  | some c => testRe c input

/-- `isGlobPattern`: `/[*?]/.test(pattern)`. -/
def isGlobPattern (pattern : String) : Bool :=
  pattern.data.any (fun c => c = '*' || c = '?')

/-! ### globToRegex

String rewriting helpers mirroring the chain of `String.replace` calls in
`globToRegex` (each is a global replacement of a fixed literal substring,
scanning left to right without rescanning replacements). -/

/-- Replace every (leftmost, non-overlapping) occurrence of the literal
    substring `pat` by `rep`. -/
def replaceSub (pat rep : List Char) : Nat → List Char → List Char
  | 0, l => l
  | _ + 1, [] => []
  | fuel + 1, c :: t =>
    if pat ≠ [] && pat.isPrefixOf (c :: t) then
      rep ++ replaceSub pat rep fuel ((c :: t).drop pat.length)
    else c :: replaceSub pat rep fuel t

def replaceSubAll (pat rep l : List Char) : List Char :=
  replaceSub pat rep (l.length + 1) l

/-- Escape of regex metacharacters: `replace(/[.+^${}()|[\]\\]/g, '\\$&')`. -/
def escapeRegexChars (l : List Char) : List Char :=
  l.flatMap (fun c =>
    if c = '.' || c = '+' || c = '^' || c = '$' || c = '{' || c = '}' ||
       c = '(' || c = ')' || c = '|' || c = '[' || c = ']' || c = '\\'
    then ['\\', c] else [c])

def DOUBLE_STAR_PLACEHOLDER : List Char := '\x00' :: "DOUBLESTAR".data ++ ['\x00']

def PATH_SEG_PLACEHOLDER : List Char := '\x00' :: "PATHSEG".data ++ ['\x00']

def START_PATH_SEG_PLACEHOLDER : List Char := '\x00' :: "STARTPATHSEG".data ++ ['\x00']

/-- `globToRegex`: converts a glob to an anchored regex source string,
    following the placeholder rewriting of the source exactly. -/
def globToRegex (glob : String) : String :=
  let r0 := escapeRegexChars glob.data
  -- /\/\*\*\//g : "/**/" in the middle
  let r1 := replaceSubAll "/**/".data PATH_SEG_PLACEHOLDER r0
  -- /\/\*\*$/ : "/**" at the end
  let r2 := if "/**".data.isSuffixOf r1
    then r1.dropLast.dropLast.dropLast ++ '/' :: DOUBLE_STAR_PLACEHOLDER
    else r1
  -- /^\*\*\// : "**/" at the start
  let r3 := if "**/".data.isPrefixOf r2
    then START_PATH_SEG_PLACEHOLDER ++ r2.drop 3
    else r2
  -- remaining "**"
  let r4 := replaceSubAll "**".data DOUBLE_STAR_PLACEHOLDER r3
  -- remaining "*" -> "[^/]*"
  let r5 := replaceSubAll "*".data "[^/]*".data r4
  -- "?" -> "."
  let r6 := replaceSubAll "?".data ".".data r5
  let r7 := replaceSubAll DOUBLE_STAR_PLACEHOLDER ".*".data r6
  let r8 := replaceSubAll PATH_SEG_PLACEHOLDER "(?:/[^/]+)*/".data r7
  let r9 := replaceSubAll START_PATH_SEG_PLACEHOLDER "(?:[^/]+/)*".data r8
  ⟨'^' :: r9 ++ ['$']⟩

/-- `patternToRegex`: glob patterns go through `globToRegex`, anything else
    is compiled literally; `none` models the propagated `SyntaxError`. -/
def patternToRegex (pattern : String) : Option CompiledRe :=
  if isGlobPattern pattern then compileRegex (globToRegex pattern) ""
  else compileRegex pattern ""

/-! ## caseTransformers.ts -/

/-- `replace(/([A-Z])/g, '_$1')` — underscore before each capital. -/
def insBeforeUpper (mark : Char) : List Char → List Char
  | [] => []
  | c :: t => if isUpperAZ c then mark :: c :: insBeforeUpper mark t
              else c :: insBeforeUpper mark t

/-- Collapse every maximal run of characters satisfying `p` into the single
    character `rep` (the shape of `replace(/[...]+/g, rep)`). -/
def collapseAux (p : Char → Bool) (rep : Char) (inRun : Bool) : List Char → List Char
  | [] => []
  | c :: t =>
    if p c then
      if inRun then collapseAux p rep true t
      else rep :: collapseAux p rep true t
    else c :: collapseAux p rep false t

def collapseRuns (p : Char → Bool) (rep : Char) (l : List Char) : List Char :=
  collapseAux p rep false l

/-- `replace(/^X/, '')` for a single character. -/
def dropOneLeading (x : Char) : List Char → List Char
  | [] => []
  | c :: t => if c = x then t else c :: t

def toSnakeL (l : List Char) : List Char :=
  collapseRuns (fun c => c = '_') '_'
    (dropOneLeading '_'
      ((collapseRuns (fun c => isJsWs c || c = '-') '_'
        (insBeforeUpper '_' l)).map lowerC))

def toSnakeCase (s : String) : String := ⟨toSnakeL s.data⟩

/-- `replace(/\b\w/g, upper)`: capitalise every word character that starts
    a word (previous character absent or not a word character). -/
def capWordStarts (prevW : Bool) : List Char → List Char
  | [] => []
  | c :: t =>
    (if isWordC c && !prevW then upperC c else c) :: capWordStarts (isWordC c) t

def toTitleL (l : List Char) : List Char :=
  trimChars
    (collapseRuns isJsWs ' '
      (capWordStarts false
        (collapseRuns (fun c => c = '_' || c = '-') ' ' l)))

def toTitleCase (s : String) : String := ⟨toTitleL s.data⟩

def toKebabL (l : List Char) : List Char :=
  collapseRuns (fun c => c = '-') '-'
    (dropOneLeading '-'
      ((collapseRuns (fun c => isJsWs c || c = '_') '-'
        (insBeforeUpper '-' l)).map lowerC))

def toKebabCase (s : String) : String := ⟨toKebabL s.data⟩

/-- `replace(/[\s_\-]+(.)/g, (_, c) => c.toUpperCase())`: a maximal
    separator run followed by a character is replaced by that character
    upper-cased; a trailing run of `n ≥ 2` separators matches with its own
    last character as the captured `(.)`; a single trailing separator does
    not match.  (Line-terminator subtleties of `(.)` are not modelled; no
    input in this code base contains them.) -/
def isCamelSep (c : Char) : Bool := isJsWs c || c = '_' || c = '-'

def camelScan (pend : List Char) : List Char → List Char
  | [] =>
    match pend.getLast? with
    | none => []
    | some x => if pend.length ≤ 1 then pend else [x]
  | c :: t =>
    if isCamelSep c then camelScan (pend ++ [c]) t
    else if pend.isEmpty then c :: camelScan [] t
    else upperC c :: camelScan [] t

def mapFirst (f : Char → Char) : List Char → List Char
  | [] => []
  | c :: t => f c :: t

def toCamelCase (s : String) : String := ⟨mapFirst lowerC (camelScan [] s.data)⟩

def toPascalCase (s : String) : String := ⟨mapFirst upperC (camelScan [] s.data)⟩

/-- `applyCaseTransform`: dispatch on the transform-type string. -/
def applyCaseTransform (input : String) (transformType : String) : String :=
  if transformType = "snake_case" then toSnakeCase input
  else if transformType = "Title Case" then toTitleCase input
  else if transformType = "kebab-case" then toKebabCase input
  else if transformType = "camelCase" then toCamelCase input
  else if transformType = "PascalCase" then toPascalCase input
  else if transformType = "lowercase" then ⟨input.data.map lowerC⟩
  else if transformType = "UPPERCASE" then ⟨input.data.map upperC⟩
  else input

/-- `input.split('/')` — split on a separator character, preserving empty
    segments (structural implementation of the JS split). -/
def splitOnChar (sep : Char) : List Char → List (List Char)
  | [] => [[]]
  | c :: t =>
    if c = sep then [] :: splitOnChar sep t
    else
      match splitOnChar sep t with
      | h :: r => (c :: h) :: r
      | [] => [[c]]

/-- `segments.join('/')`. -/
def joinWithChar (sep : Char) : List (List Char) → List Char
  | [] => []
  | [w] => w
  | w :: w2 :: ws => w ++ sep :: joinWithChar sep (w2 :: ws)

/-- `applyCaseTransformToPath`: split on `/`, transform each segment,
    rejoin with `/`. -/
def applyCaseTransformToPath (input : String) (transformType : String) : String :=
  ⟨joinWithChar '/'
    ((splitOnChar '/' input.data).map (fun seg => (applyCaseTransform ⟨seg⟩ transformType).data))⟩

/-! ## emojiTransformers.ts -/

/-- Union of the Unicode ranges stripped by `stripEmoji` (each of the
    sequential `replace(/[\u{...}-\u{...}]/gu, '')` calls removes a subset;
    the net effect is filtering out the union). -/
def isEmojiC (c : Char) : Bool :=
  let n := c.toNat
  (0x1F600 ≤ n && n ≤ 0x1F64F) ||
  (0x1F300 ≤ n && n ≤ 0x1F5FF) ||
  (0x1F680 ≤ n && n ≤ 0x1F6FF) ||
  (0x1F1E0 ≤ n && n ≤ 0x1F1FF) ||
  (0x2600 ≤ n && n ≤ 0x26FF) ||
  (0x2700 ≤ n && n ≤ 0x27BF) ||
  (0x1F900 ≤ n && n ≤ 0x1F9FF) ||
  (0x1FA00 ≤ n && n ≤ 0x1FA6F) ||
  (0x1FA70 ≤ n && n ≤ 0x1FAFF) ||
  (0xFE00 ≤ n && n ≤ 0xFE0F) ||
  (0x1F000 ≤ n && n ≤ 0x1F02F) ||
  (0x2B00 ≤ n && n ≤ 0x2BFF)

/-- `stripEmoji`: remove the emoji ranges, collapse whitespace, trim. -/
def stripEmoji (s : String) : String :=
  ⟨trimChars (collapseRuns isJsWs ' ' (s.data.filter (fun c => !isEmojiC c)))⟩

/-- `stripInvalidTagChars`: `replace(/[.:;,?!@\\]/g, '')`. -/
def stripInvalidTagChars (s : String) : String :=
  ⟨s.data.filter (fun c =>
    !(c = '.' || c = ':' || c = ';' || c = ',' || c = '?' || c = '!' ||
      c = '@' || c = '\\'))⟩

/-- `applyEmojiHandling(input, handling)`. -/
def applyEmojiHandling (input : String) (handling : String) : String :=
  if handling = "strip" then stripEmoji input else input

/-! ## numberTransformers.ts -/

structure NumberPrefixResult where
  number : Option String
  name : String
  fullMatch : Bool
deriving Repr, DecidableEq

/-- The `\s*`/`\s+` + `(.+)$` tail of the two number-prefix regexes: consume
    at least `minWs` whitespace characters greedily, then capture a
    non-empty remainder containing no line terminators.  When everything
    left is whitespace, backtracking surrenders the final whitespace
    character to `(.+)` (if it is matched by `.`). -/
def tailCapture (minWs : Nat) (r : List Char) : Option (List Char) :=
  let w := r.takeWhile isJsWs
  let rest := r.dropWhile isJsWs
  if rest ≠ [] then
    if minWs ≤ w.length && rest.all isDotC then some rest else none
  else
    match w.getLast? with
    | some c => if minWs + 1 ≤ w.length && isDotC c then some [c] else none
    | none => none

/-- `input.match(/^(\d+)\s*-\s*(.+)$/)`: digits, optional whitespace, a
    hyphen, then the tail. -/
def matchJohnnyDecimal (l : List Char) : Option (List Char × List Char) :=
  let d := l.takeWhile isDigitC
  if d = [] then none
  else
    match (l.dropWhile isDigitC).dropWhile isJsWs with
    | '-' :: r => (tailCapture 0 r).map (fun rest => (d, rest))
    | _ => none

/-- `input.match(/^(\d+)\.?\s+(.+)$/)`: digits, an optional dot, at least
    one whitespace character, then the tail. -/
def matchSimpleNumber (l : List Char) : Option (List Char × List Char) :=
  let d := l.takeWhile isDigitC
  if d = [] then none
  else
    let r := l.dropWhile isDigitC
    let r1 := match r with
      | '.' :: t => t
      | _ => r
    (tailCapture 1 r1).map (fun rest => (d, rest))

/-- `extractNumberPrefix`. -/
def extractNumberPrefix (input : String) : NumberPrefixResult :=
  match matchJohnnyDecimal input.data with
  | some (d, rest) => ⟨some ⟨d⟩, ⟨trimChars rest⟩, true⟩
  | none =>
    match matchSimpleNumber input.data with
    | some (d, rest) => ⟨some ⟨d⟩, ⟨trimChars rest⟩, true⟩
    | none => ⟨none, input, false⟩

/-- `stripNumberPrefix`. -/
def stripNumberPrefix (input : String) : String :=
  (extractNumberPrefix input).name

/-! ## pipeline.ts -/

/-- `TransformConfig` (the fields consumed by the pipeline; the enum-like
    string unions are kept as strings, as in the source). -/
structure TransformConfig where
  caseTransform : Option String := none
  emojiHandling : Option String := none
  numberPrefixHandling : Option String := none
  customTransforms : Option (List RegexTransform) := none
deriving Repr, DecidableEq

structure PipelineOptions where
  isTagTransform : Bool := false
  preserveOnError : Bool := false
deriving Repr, DecidableEq

/-- Stage 1 of the pipeline body: emoji handling when configured
    (`if (config.emojiHandling)` — a truthiness test). -/
def stageEmoji (config : TransformConfig) (r : String) : String :=
  match config.emojiHandling with
  | some h => if h ≠ "" then applyEmojiHandling r h else r
  | none => r

/-- Stage 2: number-prefix handling.  In `extract` mode the numeral is
    discarded and the name kept only when truthy (non-empty). -/
def stageNumber (config : TransformConfig) (r : String) : String :=
  if config.numberPrefixHandling = some "strip" then stripNumberPrefix r
  else if config.numberPrefixHandling = some "extract" then
    let extracted := extractNumberPrefix r
    if extracted.name ≠ "" then extracted.name else r
  else r

/-- Stage 3: path-aware case transformation when configured and not
    `'none'`. -/
def stageCase (config : TransformConfig) (r : String) : String :=
  match config.caseTransform with
  | some ct => if ct ≠ "" && ct ≠ "none" then applyCaseTransformToPath r ct else r
  | none => r

/-- Stage 4: custom regex transforms in array order. -/
def stageCustom (config : TransformConfig) (r : String) : String :=
  match config.customTransforms with
  | some ts => if ts ≠ [] then applyRegexTransforms r ts else r
  | none => r

/-- Stage 5: invalid-tag-character cleanup in tag-generation mode. -/
def stageTagChars (options : PipelineOptions) (r : String) : String :=
  if options.isTagTransform then stripInvalidTagChars r else r

/-- The `try` block of `applyTransformPipeline`, with the possibility of a
    stage throwing modelled in `Except`: an error carries the value the
    `result` variable held before the failing stage (the partial result the
    `catch` branch can observe).  Every stage of the source is total — each
    internal regex is a valid literal and `applyRegexTransform` catches its
    own compilation errors — so each stage is wrapped as an `Except` that
    always returns `ok`; the wrapping keeps the control structure of the
    source's `try`/`catch` visible. -/
def stageE (f : String → String) (r : String) : Except Unit String := .ok (f r)

/-- JavaScript `String.prototype.trim` (trims the full `\s` set). -/
def jsTrim (s : String) : String := ⟨trimChars s.data⟩

def pipelineTry (input : String) (config : TransformConfig)
    (options : PipelineOptions) : Except String String :=
  let r0 := jsTrim input
  match stageE (stageEmoji config) r0 with
  | .error _ => .error r0
  | .ok r1 =>
    match stageE (stageNumber config) r1 with
    | .error _ => .error r1
    | .ok r2 =>
      match stageE (stageCase config) r2 with
      | .error _ => .error r2
      | .ok r3 =>
        match stageE (stageCustom config) r3 with
        | .error _ => .error r3
        | .ok r4 =>
          match stageE (stageTagChars options) r4 with
          | .error _ => .error r4
          | .ok r5 => .ok (jsTrim r5)

/-- `applyTransformPipeline`: the `try` block, with the `catch` branch
    returning the untouched input under `preserveOnError` and the partial
    result otherwise. -/
def applyTransformPipeline (input : String) (config : TransformConfig)
    (options : PipelineOptions := {}) : String :=
  match pipelineTry input config options with
  | .ok s => s
  | .error accum => if options.preserveOnError then input else accum

/-- `folderToTag`: the pipeline in tag-generation mode. -/
def folderToTag (folderPath : String) (config : TransformConfig) : String :=
  applyTransformPipeline folderPath config { isTagTransform := true }

/-- `tagToFolder`: the pipeline with tag-character stripping inactive. -/
def tagToFolder (tagName : String) (config : TransformConfig) : String :=
  applyTransformPipeline tagName config { isTagTransform := false }

/-! ## ruleMatcher.ts -/

inductive RuleDirection where
  | folderToTag : RuleDirection
  | tagToFolder : RuleDirection
  | bidirectional : RuleDirection
deriving Repr, DecidableEq

inductive MatchType where
  | folder : MatchType
  | tag : MatchType
deriving Repr, DecidableEq

/-- `MappingRule` (the fields consumed by the matcher and validator;
    missing optional pattern fields are `none`, and a missing/empty `id`
    or `name` is the empty string, matching JS falsiness). -/
structure MappingRule where
  id : String
  name : String
  enabled : Bool
  priority : Int
  direction : RuleDirection
  folderPattern : Option String := none
  tagPattern : Option String := none
deriving Repr, DecidableEq

structure RuleMatch where
  rule : MappingRule
  matchType : MatchType
  matchedPattern : String
  confidence : ℚ
deriving Repr, DecidableEq

structure RuleEvaluationContext where
  input : String
  matchType : MatchType
  direction : Option RuleDirection := none
  includeDisabled : Bool := false
deriving Repr, DecidableEq

/-- `calculateMatchConfidence`, with JS numbers as exact rationals:
    1.0 on exact equality, otherwise a base of 0.5, −0.1 per `*`,
    −0.05 per `?`, +0.2·(non-wildcard pattern length / input length),
    +0.05 per `/`, clamped into `[0, 1]`.  (For an empty input JS would
    produce `Infinity` before the clamp where `ℚ` division yields 0;
    both land inside the clamp range.) -/
def calculateMatchConfidence (input pattern : String) : ℚ :=
  if pattern = input then 1
  else
    let wildcardCount : ℚ := (pattern.data.count '*' : ℚ)
    let questionMarkCount : ℚ := (pattern.data.count '?' : ℚ)
    let confidence1 : ℚ := 1/2 - wildcardCount * (1/10) - questionMarkCount * (1/20)
    let patternLength : ℚ :=
      ((pattern.data.filter (fun c => !(c = '*' || c = '?'))).length : ℚ)
    let lengthRatio : ℚ := patternLength / (input.length : ℚ)
    let confidence2 : ℚ := confidence1 + lengthRatio * (1/5)
    let slashCount : ℚ := (pattern.data.count '/' : ℚ)
    let confidence3 : ℚ := confidence2 + slashCount * (1/20)
    max 0 (min 1 confidence3)

/-- The pattern field selected by the evaluation context's match type. -/
def selectedPattern (rule : MappingRule) (ctx : RuleEvaluationContext) : Option String :=
  match ctx.matchType with
  | .folder => rule.folderPattern
  | .tag => rule.tagPattern

/-- `evaluateRule`: the four rejection gates followed by confidence
    computation.  The pattern-match test is `matchesPattern(input, pattern)`
    — the raw-regex unanchored test of `regexTransformers.ts`, not
    `patternToRegex`. -/
def evaluateRule (input : String) (rule : MappingRule)
    (ctx : RuleEvaluationContext) : Option RuleMatch :=
  if !rule.enabled && !ctx.includeDisabled then none
  else if (match ctx.direction with
    | some d => rule.direction ≠ .bidirectional && rule.direction ≠ d
    | none => false) then none
  else
    match selectedPattern rule ctx with
    | none => none
    | some pattern =>
      if pattern = "" then none
      else if !matchesPattern input pattern none then none
      else some ⟨rule, ctx.matchType, pattern, calculateMatchConfidence input pattern⟩

/-- `findMatchingRules`: evaluate every rule in order, collecting the
    non-null matches. -/
def findMatchingRules (input : String) (rules : List MappingRule)
    (ctx : RuleEvaluationContext) : List RuleMatch :=
  rules.filterMap (fun r => evaluateRule input r ctx)

/-- The sort comparator of `findBestMatch` as a total boolean preorder:
    `matchLE a b` iff the comparator orders `a` no later than `b`
    (ascending priority, then descending confidence). -/
def matchLE (a b : RuleMatch) : Bool :=
  a.rule.priority < b.rule.priority ||
  (a.rule.priority = b.rule.priority && b.confidence ≤ a.confidence)

/-- Stable insertion used to model `Array.prototype.sort` (stable per the
    ECMAScript specification): an element being inserted came later in the
    original array than everything already placed, so it goes after every
    element it compares equal to. -/
def insertMatch (a : RuleMatch) : List RuleMatch → List RuleMatch
  | [] => [a]
  | b :: t => if matchLE a b then a :: b :: t else b :: insertMatch a t

def sortMatches : List RuleMatch → List RuleMatch
  | [] => []
  | a :: t => insertMatch a (sortMatches t)

/-- `findBestMatch`: all matches, stably sorted by the comparator, first
    element (null when there are no matches). -/
def findBestMatch (input : String) (rules : List MappingRule)
    (ctx : RuleEvaluationContext) : Option RuleMatch :=
  (sortMatches (findMatchingRules input rules ctx)).head?

/-! ## validateRule -/

structure RuleValidation where
  valid : Bool
  errors : List String
deriving Repr, DecidableEq

/-- The interpolated message of `Invalid folder pattern: ${error}`; the
    thrown error's text is opaque in this model, so the message is indexed
    by the offending pattern. -/
def invalidFolderPatternMsg (p : String) : String :=
  "Invalid folder pattern: " ++ p

def invalidTagPatternMsg (p : String) : String :=
  "Invalid tag pattern: " ++ p

/-- Truthiness of an optional pattern field (`rule.folderPattern` is falsy
    when absent or empty). -/
def patTruthy : Option String → Bool
  | none => false
  | some p => p ≠ ""

/-- `validateRule`: accumulates the error strings in source order and
    reports validity as emptiness of the accumulated list. -/
def validateRule (rule : MappingRule) : RuleValidation :=
  let e1 := if rule.id = "" || jsTrim rule.id = "" then ["Rule must have a valid ID"] else []
  let e2 := if rule.name = "" || jsTrim rule.name = "" then ["Rule must have a name"] else []
  let e3 := if rule.priority < 0 then ["Priority must be non-negative"] else []
  let e4 := if (rule.direction = .folderToTag || rule.direction = .bidirectional) &&
               !patTruthy rule.folderPattern
            then ["Folder-to-tag rules must have a folder pattern"] else []
  let e5 := if (rule.direction = .tagToFolder || rule.direction = .bidirectional) &&
               !patTruthy rule.tagPattern
            then ["Tag-to-folder rules must have a tag pattern"] else []
  let e6 := match rule.folderPattern with
    | some p => if p ≠ "" && (patternToRegex p).isNone then [invalidFolderPatternMsg p] else []
    | none => []
  let e7 := match rule.tagPattern with
    | some p => if p ≠ "" && (patternToRegex p).isNone then [invalidTagPatternMsg p] else []
    | none => []
  let errors := e1 ++ e2 ++ e3 ++ e4 ++ e5 ++ e6 ++ e7
  ⟨errors.isEmpty, errors⟩

/-! ## Reference definitions written from the specification's wording
    (for comparison with the source-derived definitions above) -/

/-- "The anchored regular expression produced by `globToRegex` … matches
    the entire input": compile a regex source string and test it. -/
def regexSourceTest (src input : String) : Bool :=
  match compileRegex src "" with
  | some c => testRe c input
  | none => false

/-- The confidence reference formula as the specification words it:
    1.0 on exact equality; otherwise 0.5, minus 0.1 per `*` and 0.05 per
    `?`, plus 0.2 times (non-wildcard pattern characters / input length),
    plus 0.05 per `/`, clamped to `[0, 1]`. -/
def confidenceSpecFormula (input pattern : String) : ℚ :=
  if pattern = input then 1
  else
    max 0 (min 1
      (1/2
        - (pattern.data.count '*' : ℚ) * (1/10)
        - (pattern.data.count '?' : ℚ) * (1/20)
        + (((pattern.data.filter (fun c => !(c = '*' || c = '?'))).length : ℚ)
            / (input.length : ℚ)) * (1/5)
        + (pattern.data.count '/' : ℚ) * (1/20)))

/-- The validator's error list as the specification enumerates the
    conditions: one error string per violated condition, in order. -/
def specRuleErrors (rule : MappingRule) : List String :=
  (if rule.id = "" || jsTrim rule.id = "" then ["Rule must have a valid ID"] else []) ++
  (if rule.name = "" || jsTrim rule.name = "" then ["Rule must have a name"] else []) ++
  (if rule.priority < 0 then ["Priority must be non-negative"] else []) ++
  (if (rule.direction = .folderToTag || rule.direction = .bidirectional) &&
      !patTruthy rule.folderPattern
   then ["Folder-to-tag rules must have a folder pattern"] else []) ++
  (if (rule.direction = .tagToFolder || rule.direction = .bidirectional) &&
      !patTruthy rule.tagPattern
   then ["Tag-to-folder rules must have a tag pattern"] else []) ++
  (match rule.folderPattern with
   | some p => if p ≠ "" && (patternToRegex p).isNone then [invalidFolderPatternMsg p] else []
   | none => []) ++
  (match rule.tagPattern with
   | some p => if p ≠ "" && (patternToRegex p).isNone then [invalidTagPatternMsg p] else []
   | none => [])

/-- Words joined by a separator (no leading/trailing separator). -/
def joinSep (sep : List Char) : List (List Char) → List Char
  | [] => []
  | [w] => w
  | w :: w2 :: ws => w ++ sep ++ joinSep sep (w2 :: ws)

/-- A capitalised word: an uppercase ASCII letter followed by lowercase
    ASCII letters. -/
def isCapWord (w : List Char) : Bool :=
  match w with
  | [] => false
  | c :: t => isUpperAZ c && t.all isLowerAZ

/-- Upper-case the first character of a word. -/
def capFirst : List Char → List Char
  | [] => []
  | c :: t => upperC c :: t

/-! ## Concrete values used by witnesses and counterexamples -/

def demoGenericRule : MappingRule :=
  { id := "generic", name := "Generic", enabled := true, priority := 1,
    direction := .bidirectional, folderPattern := some "Projects/*" }

def demoSpecificRule : MappingRule :=
  { id := "specific", name := "Specific", enabled := true, priority := 1,
    direction := .bidirectional, folderPattern := some "Projects/Test" }

def demoFolderCtx : RuleEvaluationContext :=
  { input := "Projects/Test", matchType := .folder }

def demoSpecificMatch : RuleMatch :=
  { rule := demoSpecificRule, matchType := .folder,
    matchedPattern := "Projects/Test", confidence := 1 }

def demoGlobRule : MappingRule :=
  { id := "glob", name := "Glob rule", enabled := true, priority := 1,
    direction := .folderToTag, folderPattern := some "Projects/*" }

def demoDeepCtx : RuleEvaluationContext :=
  { input := "Projects/sub/file.md", matchType := .folder }

def demoGenericMatch : RuleMatch :=
  { rule := demoGenericRule, matchType := .folder,
    matchedPattern := "Projects/*", confidence := 153/260 }

def c3Config : TransformConfig :=
  { emojiHandling := some "strip", numberPrefixHandling := some "strip",
    caseTransform := some "kebab-case",
    customTransforms := some [⟨"[^a-z0-9\\-]", "", some "gi"⟩] }

/-! # Theorems for the verified claims -/

/-- C3: for the input `"📁 01 - My Cool Project!!!"` and the configuration
    `{emojiHandling: strip, numberPrefixHandling: strip, caseTransform:
    kebab-case, customTransforms: [{pattern: [^a-z0-9\-], replacement: "",
    flags: gi}]}`, `folderToTag` returns exactly `"my-cool-project"`,
    via the fixed stage order (trim, emoji strip, number-prefix strip,
    per-segment kebab-case, custom regex, invalid-tag-character strip,
    final trim). -/
theorem folderToTag_cool_project :
    folderToTag "📁 01 - My Cool Project!!!" c3Config = "my-cool-project" := by
  decide

/-- C5: `globToRegex "Projects/**"` produces a regex matching
    `"Projects/file.md"`, `"Projects/sub/file.md"` and
    `"Projects/sub/deep/file.md"`, while `globToRegex "Projects/*"`
    produces a regex matching only the first of the three. -/
theorem globToRegex_star_star_depth :
    regexSourceTest (globToRegex "Projects/**") "Projects/file.md" = true ∧
    regexSourceTest (globToRegex "Projects/**") "Projects/sub/file.md" = true ∧
    regexSourceTest (globToRegex "Projects/**") "Projects/sub/deep/file.md" = true ∧
    regexSourceTest (globToRegex "Projects/*") "Projects/file.md" = true ∧
    regexSourceTest (globToRegex "Projects/*") "Projects/sub/file.md" = false ∧
    regexSourceTest (globToRegex "Projects/*") "Projects/sub/deep/file.md" = false := by
  decide

/-- C6: the pipeline's `try` block always succeeds — no stage throws, since
    every internal regex is a valid literal and `applyRegexTransform`
    catches its own compilation failures — and its value is exactly what
    `applyTransformPipeline` (hence `folderToTag` and `tagToFolder`)
    returns; in particular no exception ever propagates to a caller, and
    the `catch` branch (original input under `preserveOnError`, otherwise
    the partial result) is defensive dead code. -/
theorem pipeline_never_throws (input : String) (config : TransformConfig)
    (options : PipelineOptions) :
    pipelineTry input config options = Except.ok (applyTransformPipeline input config options) ∧
    pipelineTry input config { isTagTransform := true } = Except.ok (folderToTag input config) ∧
    pipelineTry input config { isTagTransform := false } = Except.ok (tagToFolder input config) := by
  exact ⟨rfl, rfl, rfl⟩

/-- C2 counterexample: the rule pattern `"Projects/*"` is a glob pattern,
    and under `PatternCompiler` semantics (`globToRegex`, anchored) it does
    not match `"Projects/sub/file.md"` — yet `evaluateRule` returns a
    match for that input, because the match test compiles the pattern as a
    raw unanchored regular expression instead of going through
    `PatternCompiler`. -/
theorem evaluateRule_not_glob_counterexample :
    isGlobPattern "Projects/*" = true ∧
    regexSourceTest (globToRegex "Projects/*") "Projects/sub/file.md" = false ∧
    (evaluateRule "Projects/sub/file.md" demoGlobRule demoDeepCtx).isSome = true := by
  decide

/-- C2 as amended: `evaluateRule`'s match test compiles the selected
    pattern directly as a raw regular expression and tests it unanchored
    (`matchesPattern`, which returns false on a compilation error); glob
    patterns are not translated through `globToRegex`.  A match is
    returned exactly when the rule passes the enabled and direction gates,
    the selected pattern is present and non-empty, and that raw-regex test
    succeeds. -/
theorem evaluateRule_raw_regex_semantics (input : String) (rule : MappingRule)
    (ctx : RuleEvaluationContext) :
    (evaluateRule input rule ctx).isSome =
      ((rule.enabled || ctx.includeDisabled) &&
       (match ctx.direction with
        | some d => rule.direction = RuleDirection.bidirectional || rule.direction = d
        | none => true) &&
       (match selectedPattern rule ctx with
        | some p => p ≠ "" && matchesPattern input p none
        | none => false)) := by
  cases hE : rule.enabled <;> cases hI : ctx.includeDisabled <;>
    cases hD : ctx.direction <;> cases hP : selectedPattern rule ctx <;>
      simp [evaluateRule, hE, hI, hD, hP] <;>
        rename_i p <;> by_cases hpe : p = "" <;>
          simp [hpe] <;> by_cases hmp : matchesPattern input p none <;> simp [hmp] <;>
            (try rename_i d) <;>
            by_cases hd1 : rule.direction = RuleDirection.bidirectional <;>
              by_cases hd2 : rule.direction = d <;> simp [hd1, hd2]

/-- C10: when a `RegexTransform` carries no `flags` field,
    `applyRegexTransform` behaves exactly as with the explicit flags
    `"g"` (the source defaults `transform.flags || 'g'`), and the compiled
    regex indeed carries the global flag — so every non-overlapping
    occurrence is replaced, not only the first. -/
theorem applyRegexTransform_defaults_global (input : String) (t : RegexTransform)
    (h : t.flags = none) :
    applyRegexTransform input t =
      applyRegexTransform input { pattern := t.pattern, replacement := t.replacement, flags := some "g" } ∧
    ∀ c, compileRegex t.pattern "g" = some c → c.global = true := by
  constructor
  · obtain ⟨p, r, fl⟩ := t
    simp only at h
    subst h
    rfl
  · intro c hc
    simp only [compileRegex] at hc
    split at hc
    · cases hc
      rfl
    · cases hc

/-- Witness for C10 at a concrete transform: the default-flag replacement
    equals the explicit-`"g"` replacement and rewrites every occurrence. -/
theorem applyRegexTransform_defaults_global_witness :
    (applyRegexTransform "a-a-a" ⟨"a", "b", none⟩ =
      applyRegexTransform "a-a-a" ⟨"a", "b", some "g"⟩) ∧
    applyRegexTransform "a-a-a" ⟨"a", "b", none⟩ = "b-b-b" :=
  ⟨(applyRegexTransform_defaults_global "a-a-a" ⟨"a", "b", none⟩ rfl).1, by decide⟩

/-! ## Confidence formula (C4) -/

/-- The source's confidence computation is the specification's reference
    formula, stage for stage. -/
theorem calculateMatchConfidence_eq_spec (input pattern : String) :
    calculateMatchConfidence input pattern = confidenceSpecFormula input pattern := rfl

theorem calculateMatchConfidence_mem_unit (input pattern : String) :
    0 ≤ calculateMatchConfidence input pattern ∧ calculateMatchConfidence input pattern ≤ 1 := by
  unfold calculateMatchConfidence
  split
  · exact ⟨zero_le_one, le_refl 1⟩
  · exact ⟨le_max_left 0 _, max_le zero_le_one (min_le_left 1 _)⟩

/-- C4: the confidence in any `RuleMatch` returned by `evaluateRule` equals
    the reference formula (exact match 1.0; otherwise 0.5 − 0.1·stars −
    0.05·questions + 0.2·(non-wildcard chars / input length) + 0.05·slashes,
    clamped), and in particular always lies in `[0, 1]`. -/
theorem returned_confidence_formula (input : String) (rule : MappingRule)
    (ctx : RuleEvaluationContext) (m : RuleMatch)
    (h : evaluateRule input rule ctx = some m) :
    m.confidence = confidenceSpecFormula input m.matchedPattern ∧
    0 ≤ m.confidence ∧ m.confidence ≤ 1 := by
  unfold evaluateRule at h
  split at h
  · exact absurd h (by simp)
  · split at h
    · exact absurd h (by simp)
    · split at h
      · exact absurd h (by simp)
      · split at h
        · exact absurd h (by simp)
        · split at h
          · exact absurd h (by simp)
          · cases h
            exact ⟨calculateMatchConfidence_eq_spec _ _,
              calculateMatchConfidence_mem_unit _ _⟩

/-- Witness for C4 at a concrete evaluation: the generic demo rule matches
    `"Projects/Test"` with a confidence obeying the formula and the
    bounds. -/
theorem returned_confidence_formula_witness :
    demoGenericMatch.confidence = confidenceSpecFormula "Projects/Test" demoGenericMatch.matchedPattern ∧
    0 ≤ demoGenericMatch.confidence ∧ demoGenericMatch.confidence ≤ 1 :=
  returned_confidence_formula "Projects/Test" demoGenericRule demoFolderCtx demoGenericMatch
    (by with_unfolding_all decide)

/-! ## Rule validation (C7) -/

/-- C7: `validateRule` accumulates exactly one error string per violated
    condition — empty/missing id, empty/missing name, negative priority,
    missing folder pattern when the direction requires it, missing tag
    pattern when the direction requires it, and a present pattern failing
    `PatternCompiler` compilation — and the `valid` flag is true exactly
    when the accumulated error list is empty. -/
theorem validateRule_accumulates (rule : MappingRule) :
    (validateRule rule).errors = specRuleErrors rule ∧
    ((validateRule rule).valid = true ↔ (validateRule rule).errors = []) :=
  ⟨rfl, List.isEmpty_iff⟩

/-! ## The sort comparator and the stable sort (C1, C9) -/

theorem matchLE_iff (a b : RuleMatch) :
    matchLE a b = true ↔
      (a.rule.priority < b.rule.priority ∨
       (a.rule.priority = b.rule.priority ∧ b.confidence ≤ a.confidence)) := by
  simp [matchLE]

theorem matchLE_refl (a : RuleMatch) : matchLE a a = true := by
  simp [matchLE_iff]

theorem matchLE_total (a b : RuleMatch) : matchLE a b = true ∨ matchLE b a = true := by
  simp only [matchLE_iff]
  rcases lt_trichotomy a.rule.priority b.rule.priority with h | h | h
  · exact Or.inl (Or.inl h)
  · rcases le_total b.confidence a.confidence with hc | hc
    · exact Or.inl (Or.inr ⟨h, hc⟩)
    · exact Or.inr (Or.inr ⟨h.symm, hc⟩)
  · exact Or.inr (Or.inl h)

theorem matchLE_trans {a b c : RuleMatch} (h1 : matchLE a b = true)
    (h2 : matchLE b c = true) : matchLE a c = true := by
  rw [matchLE_iff] at h1 h2 ⊢
  rcases h1 with h1 | ⟨h1, h1c⟩ <;> rcases h2 with h2 | ⟨h2, h2c⟩
  · exact Or.inl (h1.trans h2)
  · exact Or.inl (h2 ▸ h1)
  · exact Or.inl (h1 ▸ h2)
  · exact Or.inr ⟨h1.trans h2, h2c.trans h1c⟩

theorem insertMatch_ne_nil (a : RuleMatch) (l : List RuleMatch) :
    insertMatch a l ≠ [] := by
  cases l with
  | nil => simp [insertMatch]
  | cons b t => unfold insertMatch; split <;> simp

theorem sortMatches_eq_nil_iff (l : List RuleMatch) : sortMatches l = [] ↔ l = [] := by
  cases l with
  | nil => simp [sortMatches]
  | cons a t => simp [sortMatches, insertMatch_ne_nil]

theorem insertMatch_head (a b : RuleMatch) (t : List RuleMatch) :
    (insertMatch a (b :: t)).head? = if matchLE a b then some a else some b := by
  unfold insertMatch
  split <;> simp_all

/-- `find?` is stable under strengthening the predicate by a condition the
    found element satisfies. -/
theorem find?_and_left {t : List RuleMatch} {P Q : RuleMatch → Bool} {b : RuleMatch}
    (h : t.find? P = some b) (hq : Q b = true) :
    t.find? (fun m => Q m && P m) = some b := by
  induction t with
  | nil => simp at h
  | cons x xs ih =>
    by_cases hx : P x = true
    · rw [List.find?_cons_of_pos _ hx] at h
      cases h
      exact List.find?_cons_of_pos _ (by simp [hx, hq])
    · have hx' : ¬ (P x = true) := hx
      rw [List.find?_cons_of_neg _ hx'] at h
      rw [List.find?_cons_of_neg _ (by simp [Bool.eq_false_iff.mpr hx'])]
      exact ih h

/-- The head of the stable insertion sort is the first element of the
    input that the comparator places no later than every element. -/
theorem sortMatches_head?_eq (l : List RuleMatch) :
    (sortMatches l).head? = l.find? (fun m => l.all (fun m2 => matchLE m m2)) := by
  induction l with
  | nil => rfl
  | cons a t ih =>
    show (insertMatch a (sortMatches t)).head? = _
    rcases hs : sortMatches t with _ | ⟨b, s⟩
    · have ht : t = [] := (sortMatches_eq_nil_iff t).mp hs
      subst ht
      simp [insertMatch, matchLE_refl]
    · have ihb : t.find? (fun m => t.all (fun m2 => matchLE m m2)) = some b := by
        rw [← ih, hs]; rfl
      have hbP : t.all (fun m2 => matchLE b m2) = true := by
        simpa using List.find?_some ihb
      have hbmem : b ∈ t := List.mem_of_find?_eq_some ihb
      rw [insertMatch_head]
      by_cases hab : matchLE a b = true
      · rw [if_pos hab]
        have hPa : ((a :: t).all (fun m2 => matchLE a m2)) = true := by
          rw [List.all_eq_true]
          intro x hx
          rcases List.mem_cons.mp hx with rfl | hx2
          · exact matchLE_refl _
          · rw [List.all_eq_true] at hbP
            exact matchLE_trans hab (hbP x hx2)
        exact (@List.find?_cons_of_pos _
          (fun m => (a :: t).all (fun m2 => matchLE m m2)) a t hPa).symm
      · rw [if_neg hab]
        have hba : matchLE b a = true := (matchLE_total a b).resolve_left hab
        have hPa : ¬ (((a :: t).all (fun m2 => matchLE a m2)) = true) := by
          intro hall
          rw [List.all_eq_true] at hall
          exact hab (hall b (List.mem_cons.mpr (Or.inr hbmem)))
        have hstep := @List.find?_cons_of_neg _
          (fun m => (a :: t).all (fun m2 => matchLE m m2)) a t hPa
        rw [hstep]
        have hfun : (fun m => (a :: t).all (fun m2 => matchLE m m2)) =
            (fun m => matchLE m a && t.all (fun m2 => matchLE m m2)) := by
          funext m
          rw [List.all_cons]
        rw [hfun]
        exact (find?_and_left ihb hba).symm

/-- C9: full ties are broken by position — `findMatchingRules` is the
    order-preserving filter of the rule list, and `findBestMatch` returns
    the first match that the (stable) priority/confidence comparator
    places no later than every other match. -/
theorem findBestMatch_stable (input : String) (rules : List MappingRule)
    (ctx : RuleEvaluationContext) :
    findMatchingRules input rules ctx =
      rules.filterMap (fun r => evaluateRule input r ctx) ∧
    findBestMatch input rules ctx =
      (findMatchingRules input rules ctx).find?
        (fun m => (findMatchingRules input rules ctx).all (fun m2 => matchLE m m2)) :=
  ⟨rfl, sortMatches_head?_eq _⟩

/-- C1: a returned best match is one of the matches, carries the minimum
    priority among all matches, has maximal confidence among the matches
    of that minimal priority, and `findBestMatch` returns null exactly
    when `findMatchingRules` is empty. -/
theorem findBestMatch_min_priority_max_confidence (input : String)
    (rules : List MappingRule) (ctx : RuleEvaluationContext) :
    (findBestMatch input rules ctx = none ↔ findMatchingRules input rules ctx = []) ∧
    ∀ m, findBestMatch input rules ctx = some m →
      m ∈ findMatchingRules input rules ctx ∧
      (∀ m2 ∈ findMatchingRules input rules ctx, m.rule.priority ≤ m2.rule.priority) ∧
      (∀ m2 ∈ findMatchingRules input rules ctx,
        m2.rule.priority = m.rule.priority → m2.confidence ≤ m.confidence) := by
  constructor
  · unfold findBestMatch
    rw [List.head?_eq_none_iff, sortMatches_eq_nil_iff]
  · intro m hm
    have h := sortMatches_head?_eq (findMatchingRules input rules ctx)
    unfold findBestMatch at hm
    rw [h] at hm
    refine ⟨List.mem_of_find?_eq_some hm, ?_, ?_⟩
    · intro m2 hm2
      have hall := List.find?_some hm
      rw [List.all_eq_true] at hall
      have := hall m2 hm2
      rw [matchLE_iff] at this
      rcases this with h' | ⟨h', _⟩
      · exact le_of_lt h'
      · exact le_of_eq h'
    · intro m2 hm2 hpri
      have hall := List.find?_some hm
      rw [List.all_eq_true] at hall
      have := hall m2 hm2
      rw [matchLE_iff] at this
      rcases this with h' | ⟨_, hc⟩
      · exact absurd (hpri ▸ h') (lt_irrefl _)
      · exact hc

/-- Witness for C1: with two matching priority-1 rules, the exact-match
    rule (confidence 1.0) is returned; it is a match, priority-minimal,
    and confidence-maximal among its priority. -/
theorem findBestMatch_min_priority_max_confidence_witness :
    (findBestMatch "Projects/Test" [demoGenericRule, demoSpecificRule] demoFolderCtx = none ↔
      findMatchingRules "Projects/Test" [demoGenericRule, demoSpecificRule] demoFolderCtx = []) ∧
    demoSpecificMatch ∈ findMatchingRules "Projects/Test" [demoGenericRule, demoSpecificRule] demoFolderCtx ∧
    (∀ m2 ∈ findMatchingRules "Projects/Test" [demoGenericRule, demoSpecificRule] demoFolderCtx,
      demoSpecificMatch.rule.priority ≤ m2.rule.priority) ∧
    (∀ m2 ∈ findMatchingRules "Projects/Test" [demoGenericRule, demoSpecificRule] demoFolderCtx,
      m2.rule.priority = demoSpecificMatch.rule.priority →
        m2.confidence ≤ demoSpecificMatch.confidence) :=
  ⟨(findBestMatch_min_priority_max_confidence "Projects/Test"
      [demoGenericRule, demoSpecificRule] demoFolderCtx).1,
   (findBestMatch_min_priority_max_confidence "Projects/Test"
      [demoGenericRule, demoSpecificRule] demoFolderCtx).2 demoSpecificMatch
      (by with_unfolding_all decide)⟩

/-! ## Character arithmetic (for the snake/Title round-trip, C8) -/

theorem char_eq_iff_toNat {c d : Char} : c = d ↔ c.toNat = d.toNat := by
  constructor
  · intro h; rw [h]
  · intro h
    have h2 := congrArg Char.ofNat h
    rwa [Char.ofNat_toNat, Char.ofNat_toNat] at h2

theorem char_toNat_ofNat_small {n : Nat} (h : n < 55296) : (Char.ofNat n).toNat = n := by
  have hv : n.isValidChar := Or.inl h
  rw [Char.ofNat, dif_pos hv]
  rfl

theorem isUpperAZ_iff {c : Char} : isUpperAZ c = true ↔ 65 ≤ c.toNat ∧ c.toNat ≤ 90 := by
  simp [isUpperAZ]

theorem isLowerAZ_iff {c : Char} : isLowerAZ c = true ↔ 97 ≤ c.toNat ∧ c.toNat ≤ 122 := by
  simp [isLowerAZ]

/-- An ASCII letter is not whitespace, not a hyphen, not an underscore,
    and is a word character. -/
theorem letter_not_sep {c : Char} (h : isUpperAZ c = true ∨ isLowerAZ c = true) :
    isJsWs c = false ∧ decide (c = '-') = false ∧ decide (c = '_') = false ∧
    isWordC c = true := by
  have hn : (65 ≤ c.toNat ∧ c.toNat ≤ 90) ∨ (97 ≤ c.toNat ∧ c.toNat ≤ 122) := by
    rcases h with h | h
    · exact Or.inl (isUpperAZ_iff.mp h)
    · exact Or.inr (isLowerAZ_iff.mp h)
  refine ⟨?_, ?_, ?_, ?_⟩
  · apply Bool.eq_false_iff.mpr
    intro hw
    simp only [isJsWs, Bool.or_eq_true, Bool.and_eq_true, decide_eq_true_eq] at hw
    omega
  · rw [decide_eq_false_iff_not]
    intro he
    have : c.toNat = 45 := char_eq_iff_toNat.mp he
    omega
  · rw [decide_eq_false_iff_not]
    intro he
    have : c.toNat = 95 := char_eq_iff_toNat.mp he
    omega
  · simp only [isWordC, isUpperAZ, isLowerAZ, isDigitC, Bool.or_eq_true,
      Bool.and_eq_true, decide_eq_true_eq]
    omega

theorem lowerC_fix {c : Char} (h : isLowerAZ c = true) : lowerC c = c := by
  have hb := isLowerAZ_iff.mp h
  have hu : isUpperAZ c = false := by
    apply Bool.eq_false_iff.mpr
    intro hU
    have := isUpperAZ_iff.mp hU
    omega
  simp [lowerC, hu]

theorem lowerC_of_upper {c : Char} (h : isUpperAZ c = true) :
    (lowerC c).toNat = c.toNat + 32 ∧ isLowerAZ (lowerC c) = true ∧
    upperC (lowerC c) = c := by
  have hb := isUpperAZ_iff.mp h
  have h1 : lowerC c = Char.ofNat (c.toNat + 32) := by simp [lowerC, h]
  have h2 : (lowerC c).toNat = c.toNat + 32 := by
    rw [h1, char_toNat_ofNat_small (by omega)]
  have h3 : isLowerAZ (lowerC c) = true := by
    rw [isLowerAZ_iff, h2]
    omega
  refine ⟨h2, h3, ?_⟩
  have h4 : upperC (lowerC c) = Char.ofNat ((lowerC c).toNat - 32) := by
    simp [upperC, h3]
  rw [h4, h2, Nat.add_sub_cancel, Char.ofNat_toNat]

theorem map_lowerC_fix {t : List Char} (h : ∀ c ∈ t, isLowerAZ c = true) :
    t.map lowerC = t := by
  induction t with
  | nil => rfl
  | cons c r ih =>
    rw [List.map_cons, lowerC_fix (h c (List.mem_cons_self c r)),
      ih (fun x hx => h x (List.mem_cons_of_mem c hx))]

/-! ## Run-collapsing and scanning lemmas (C8) -/

theorem collapseAux_nil {p : Char → Bool} {rep : Char} {st : Bool} :
    collapseAux p rep st [] = [] := rfl

theorem collapseAux_cons_of_pos_true {p : Char → Bool} {rep c : Char} {t : List Char}
    (hc : p c = true) :
    collapseAux p rep true (c :: t) = collapseAux p rep true t := by
  simp [collapseAux, hc]

theorem collapseAux_cons_of_pos_false {p : Char → Bool} {rep c : Char} {t : List Char}
    (hc : p c = true) :
    collapseAux p rep false (c :: t) = rep :: collapseAux p rep true t := by
  simp [collapseAux, hc]

theorem collapseAux_cons_of_neg {p : Char → Bool} {rep c : Char} {t : List Char}
    (hc : p c = false) (st : Bool) :
    collapseAux p rep st (c :: t) = c :: collapseAux p rep false t := by
  simp [collapseAux, hc]

theorem collapseAux_append_nonp {p : Char → Bool} {rep : Char} :
    ∀ (xs ys : List Char) (st : Bool), (∀ c ∈ xs, p c = false) →
      collapseAux p rep st (xs ++ ys) = xs ++ collapseAux p rep (xs.isEmpty && st) ys := by
  intro xs
  induction xs with
  | nil => intro ys st _; simp
  | cons c t ih =>
    intro ys st h
    have hc : p c = false := h c (List.mem_cons_self c t)
    have ht : ∀ x ∈ t, p x = false := fun x hx => h x (List.mem_cons_of_mem c hx)
    rw [List.cons_append, collapseAux_cons_of_neg hc, ih ys false ht]
    simp

theorem collapseAux_allp {p : Char → Bool} {rep : Char} :
    ∀ (xs ys : List Char), (∀ c ∈ xs, p c = true) →
      collapseAux p rep true (xs ++ ys) = collapseAux p rep true ys := by
  intro xs
  induction xs with
  | nil => intro ys _; rfl
  | cons c t ih =>
    intro ys h
    have hc : p c = true := h c (List.mem_cons_self c t)
    rw [List.cons_append, collapseAux_cons_of_pos_true hc]
    exact ih ys (fun x hx => h x (List.mem_cons_of_mem c hx))

theorem collapseAux_p_run {p : Char → Bool} {rep : Char} {xs : List Char}
    (ys : List Char) (h : ∀ c ∈ xs, p c = true) (hne : xs ≠ []) :
    collapseAux p rep false (xs ++ ys) = rep :: collapseAux p rep true ys := by
  cases xs with
  | nil => exact absurd rfl hne
  | cons c t =>
    have hc : p c = true := h c (List.mem_cons_self c t)
    rw [List.cons_append, collapseAux_cons_of_pos_false hc,
      collapseAux_allp t ys (fun x hx => h x (List.mem_cons_of_mem c hx))]

theorem collapseAux_true_to_false {p : Char → Bool} {rep : Char} {ys : List Char}
    (h : ys = [] ∨ ∃ c t, ys = c :: t ∧ p c = false) :
    collapseAux p rep true ys = collapseAux p rep false ys := by
  rcases h with rfl | ⟨c, t, rfl, hc⟩
  · rfl
  · rw [collapseAux_cons_of_neg hc, collapseAux_cons_of_neg hc]

theorem joinSep_cons (sep : List Char) (b : List Char) (bs : List (List Char)) :
    joinSep sep (b :: bs) = b ++ (if bs.isEmpty then [] else sep ++ joinSep sep bs) := by
  cases bs with
  | nil => simp [joinSep]
  | cons b2 r => simp [joinSep]

/-- Collapsing separator runs in a separated join of run-free non-empty
    blocks replaces each separator by the single replacement character. -/
theorem collapse_joinSep {p : Char → Bool} {rep : Char} {sep : List Char}
    (hsep1 : sep ≠ []) (hsep2 : ∀ c ∈ sep, p c = true) :
    ∀ blocks : List (List Char), (∀ b ∈ blocks, b ≠ [] ∧ ∀ c ∈ b, p c = false) →
      collapseRuns p rep (joinSep sep blocks) = joinSep [rep] blocks := by
  intro blocks
  induction blocks with
  | nil => intro _; rfl
  | cons b bs ih =>
    intro hb
    have hbhead := hb b (List.mem_cons_self b bs)
    cases bs with
    | nil =>
      show collapseAux p rep false (joinSep sep [b]) = joinSep [rep] [b]
      show collapseAux p rep false b = b
      have h1 := @collapseAux_append_nonp p rep b [] false hbhead.2
      simpa [collapseAux_nil] using h1
    | cons b2 r =>
      have hb2 := hb b2 (List.mem_cons_of_mem b (List.mem_cons_self b2 r))
      have hgoal : joinSep sep (b :: b2 :: r) = b ++ (sep ++ joinSep sep (b2 :: r)) := by
        simp [joinSep]
      show collapseAux p rep false (joinSep sep (b :: b2 :: r)) = joinSep [rep] (b :: b2 :: r)
      rw [hgoal, collapseAux_append_nonp b (sep ++ joinSep sep (b2 :: r)) false hbhead.2,
        Bool.and_false, collapseAux_p_run (joinSep sep (b2 :: r)) hsep2 hsep1]
      have hhead : ∃ c t, joinSep sep (b2 :: r) = c :: t ∧ p c = false := by
        obtain ⟨c, t, hct⟩ : ∃ c t, b2 = c :: t := by
          cases b2 with
          | nil => exact absurd rfl hb2.1
          | cons c t => exact ⟨c, t, rfl⟩
        refine ⟨c, t ++ (if r.isEmpty then [] else sep ++ joinSep sep r), ?_, ?_⟩
        · rw [joinSep_cons, hct, List.cons_append]
        · exact hb2.2 c (hct ▸ List.mem_cons_self c t)
      rw [collapseAux_true_to_false (Or.inr hhead)]
      have ihr := ih (fun x hx => hb x (List.mem_cons_of_mem b hx))
      rw [show collapseAux p rep false (joinSep sep (b2 :: r)) = joinSep [rep] (b2 :: r) from ihr]
      simp [joinSep]

/-! ## Marker insertion, join and capitalisation lemmas (C8) -/

theorem insBeforeUpper_append (mark : Char) :
    ∀ xs ys : List Char,
      insBeforeUpper mark (xs ++ ys) = insBeforeUpper mark xs ++ insBeforeUpper mark ys := by
  intro xs
  induction xs with
  | nil => intro ys; rfl
  | cons c t ih =>
    intro ys
    simp only [List.cons_append, insBeforeUpper]
    split <;> simp [ih]

theorem insBeforeUpper_nonupper {mark : Char} :
    ∀ {xs : List Char}, (∀ c ∈ xs, isUpperAZ c = false) → insBeforeUpper mark xs = xs := by
  intro xs
  induction xs with
  | nil => intro _; rfl
  | cons c t ih =>
    intro h
    have hc : isUpperAZ c = false := h c (List.mem_cons_self c t)
    simp only [insBeforeUpper, hc, Bool.false_eq_true, if_false]
    rw [ih (fun x hx => h x (List.mem_cons_of_mem c hx))]

theorem joinSep_append_distrib (f : List Char → List Char) (sep : List Char)
    (hf : ∀ a b, f (a ++ b) = f a ++ f b) :
    ∀ blocks : List (List Char), f (joinSep sep blocks) = joinSep (f sep) (blocks.map f) := by
  have hfnil : f [] = [] := by
    have := hf [] []
    simpa using this.symm
  intro blocks
  induction blocks with
  | nil => simpa using hfnil
  | cons b bs ih =>
    cases bs with
    | nil => rfl
    | cons b2 r =>
      have hj : joinSep sep (b :: b2 :: r) = b ++ sep ++ joinSep sep (b2 :: r) := rfl
      rw [hj, hf, hf, ih]
      rfl

theorem map_joinSep (f : Char → Char) (sep : List Char) :
    ∀ blocks : List (List Char),
      (joinSep sep blocks).map f = joinSep (sep.map f) (blocks.map (List.map f)) := by
  exact joinSep_append_distrib (List.map f) sep (fun a b => List.map_append f a b)

/-- A separated join of marker-prefixed blocks is the marker followed by a
    join with the marker absorbed into the separator. -/
theorem joinSep_marked (s m : Char) :
    ∀ lws : List (List Char), lws ≠ [] →
      joinSep [s] (lws.map (fun w => m :: w)) = m :: joinSep [s, m] lws := by
  intro lws
  induction lws with
  | nil => intro h; exact absurd rfl h
  | cons w ws ih =>
    intro _
    cases ws with
    | nil => rfl
    | cons w2 r =>
      have hj : joinSep [s] ((w :: w2 :: r).map (fun w => m :: w)) =
          (m :: w) ++ [s] ++ joinSep [s] ((w2 :: r).map (fun w => m :: w)) := rfl
      rw [hj, ih (by simp)]
      simp [joinSep]

theorem capWordStarts_allword_true :
    ∀ (xs ys : List Char), (∀ c ∈ xs, isWordC c = true) →
      capWordStarts true (xs ++ ys) = xs ++ capWordStarts true ys := by
  intro xs
  induction xs with
  | nil => intro ys _; rfl
  | cons c t ih =>
    intro ys h
    have hc : isWordC c = true := h c (List.mem_cons_self c t)
    simp only [List.cons_append, capWordStarts, hc, Bool.not_true, Bool.and_false,
      Bool.false_eq_true, if_false, List.append_eq]
    rw [ih ys (fun x hx => h x (List.mem_cons_of_mem c hx))]

theorem capWordStarts_word_start {x : Char} {xt : List Char}
    (hx : isWordC x = true) (hxt : ∀ c ∈ xt, isWordC c = true) (ys : List Char) :
    capWordStarts false ((x :: xt) ++ ys) = (upperC x :: xt) ++ capWordStarts true ys := by
  simp only [List.cons_append, capWordStarts, hx, Bool.not_false, Bool.and_true, if_true,
    List.append_eq]
  rw [capWordStarts_allword_true xt ys hxt]

theorem capWordStarts_space (b : Bool) (ys : List Char) :
    capWordStarts b (' ' :: ys) = ' ' :: capWordStarts false ys := by
  have h : isWordC ' ' = false := by decide
  simp [capWordStarts, h]

/-- Capitalisation of a space-separated join of non-empty all-word blocks
    capitalises the first character of each block. -/
theorem capWordStarts_joinSep :
    ∀ blocks : List (List Char),
      (∀ w ∈ blocks, w ≠ [] ∧ ∀ c ∈ w, isWordC c = true) →
      capWordStarts false (joinSep [' '] blocks) = joinSep [' '] (blocks.map capFirst) := by
  intro blocks
  induction blocks with
  | nil => intro _; rfl
  | cons b bs ih =>
    intro hb
    have hbh := hb b (List.mem_cons_self b bs)
    obtain ⟨x, xt, rfl⟩ : ∃ x xt, b = x :: xt := by
      cases b with
      | nil => exact absurd rfl hbh.1
      | cons x xt => exact ⟨x, xt, rfl⟩
    have hx : isWordC x = true := hbh.2 x (List.mem_cons_self x xt)
    have hxt : ∀ c ∈ xt, isWordC c = true :=
      fun c hc => hbh.2 c (List.mem_cons_of_mem x hc)
    cases bs with
    | nil =>
      show capWordStarts false (x :: xt) = capFirst (x :: xt)
      have h1 := capWordStarts_word_start hx hxt []
      simpa [capFirst, capWordStarts] using h1
    | cons b2 r =>
      have hj : joinSep [' '] ((x :: xt) :: b2 :: r) =
          (x :: xt) ++ (' ' :: joinSep [' '] (b2 :: r)) := by
        have : joinSep [' '] ((x :: xt) :: b2 :: r) =
            (x :: xt) ++ [' '] ++ joinSep [' '] (b2 :: r) := rfl
        rw [this]
        simp
      rw [hj, capWordStarts_word_start hx hxt, capWordStarts_space,
        ih (fun w hw => hb w (List.mem_cons_of_mem _ hw))]
      simp [capFirst, joinSep]

/-! ## Trim and end-character lemmas (C8) -/

theorem trimChars_of_ends {l : List Char}
    (h1 : ∀ c, l.head? = some c → isJsWs c = false)
    (h2 : ∀ c, l.getLast? = some c → isJsWs c = false) :
    trimChars l = l := by
  unfold trimChars
  have hd : l.dropWhile isJsWs = l := by
    cases l with
    | nil => rfl
    | cons c t =>
      rw [List.dropWhile_cons, h1 c rfl]
      simp
  have hr : l.reverse.dropWhile isJsWs = l.reverse := by
    cases hrev : l.reverse with
    | nil => rfl
    | cons c t =>
      rw [List.dropWhile_cons]
      have : l.getLast? = some c := by
        rw [← List.head?_reverse, hrev]
        rfl
      rw [h2 c this]
      simp
  rw [hd, hr, List.reverse_reverse]

theorem joinSep_head? {sep : List Char} {x : Char} {xt : List Char}
    (bs : List (List Char)) :
    (joinSep sep ((x :: xt) :: bs)).head? = some x := by
  cases bs with
  | nil => rfl
  | cons b2 r => rfl

theorem joinSep_getLast? {sep : List Char} :
    ∀ (blocks : List (List Char)) (b : List Char), (∀ w ∈ blocks, w ≠ []) →
      blocks.getLast? = some b → (joinSep sep blocks).getLast? = b.getLast? := by
  intro blocks
  induction blocks with
  | nil => intro b _ h; cases h
  | cons w ws ih =>
    intro b hne hlast
    cases ws with
    | nil =>
      have : w = b := by
        have h1 : (w :: ([] : List (List Char))).getLast? = some w := rfl
        rw [h1] at hlast
        cases hlast
        rfl
      subst this
      rfl
    | cons w2 r =>
      have hlast2 : (w2 :: r).getLast? = some b := by
        rwa [List.getLast?_cons_cons] at hlast
      have hrec := ih b (fun x hx => hne x (List.mem_cons_of_mem w hx)) hlast2
      have hj : joinSep sep (w :: w2 :: r) = (w ++ sep) ++ joinSep sep (w2 :: r) := rfl
      rw [hj, List.getLast?_append, hrec]
      have hbne : b ≠ [] := by
        apply hne
        exact List.mem_of_mem_getLast? hlast
      obtain ⟨c, hc⟩ : ∃ c, b.getLast? = some c := by
        cases hb2 : b.getLast? with
        | none => exact absurd (List.getLast?_eq_none_iff.mp hb2) hbne
        | some c => exact ⟨c, rfl⟩
      rw [hc]
      rfl

/-! ## The snake/Title normal forms (C8) -/

theorem lower_not_upper {c : Char} (h : isLowerAZ c = true) : isUpperAZ c = false := by
  have hb := isLowerAZ_iff.mp h
  apply Bool.eq_false_iff.mpr
  intro hU
  have := isUpperAZ_iff.mp hU
  omega

theorem capWord_parts {w : List Char} (h : isCapWord w = true) :
    ∃ x xt, w = x :: xt ∧ isUpperAZ x = true ∧ ∀ c ∈ xt, isLowerAZ c = true := by
  cases w with
  | nil => simp [isCapWord] at h
  | cons x xt =>
    simp only [isCapWord, Bool.and_eq_true, List.all_eq_true] at h
    exact ⟨x, xt, rfl, h.1, h.2⟩

/-- The characters of a lower-cased capitalised word. -/
theorem lowered_word_facts {w : List Char} (h : isCapWord w = true) :
    w.map lowerC ≠ [] ∧ ∀ c ∈ w.map lowerC, isLowerAZ c = true := by
  obtain ⟨x, xt, rfl, hx, hxt⟩ := capWord_parts h
  rw [List.map_cons, map_lowerC_fix hxt]
  refine ⟨by simp, ?_⟩
  intro c hc
  rcases List.mem_cons.mp hc with rfl | hc2
  · exact (lowerC_of_upper hx).2.1
  · exact hxt c hc2

/-- `toSnakeCase` on a Title-Case join produces the lower-cased words
    joined by single underscores. -/
theorem toSnakeL_titleform (ws : List (List Char))
    (hws : ∀ w ∈ ws, isCapWord w = true) :
    toSnakeL (joinSep [' '] ws) = joinSep ['_'] (ws.map (List.map lowerC)) := by
  cases hws0 : ws with
  | nil => rfl
  | cons w0 wr =>
  subst hws0
  unfold toSnakeL
  -- Stage 1: underscore insertion before each capital.
  have s1 : insBeforeUpper '_' (joinSep [' '] (w0 :: wr)) =
      joinSep [' '] ((w0 :: wr).map (fun w => '_' :: w)) := by
    rw [joinSep_append_distrib (insBeforeUpper '_') [' '] (insBeforeUpper_append '_')]
    have hsep : insBeforeUpper '_' [' '] = [' '] := by decide
    rw [hsep]
    congr 1
    apply List.map_congr_left
    intro w hw
    obtain ⟨x, xt, rfl, hx, hxt⟩ := capWord_parts (hws w hw)
    show insBeforeUpper '_' (x :: xt) = '_' :: x :: xt
    simp only [insBeforeUpper, hx, if_true]
    rw [insBeforeUpper_nonupper (fun c hc => lower_not_upper (hxt c hc))]
  rw [s1]
  -- Stage 2: whitespace/hyphen runs collapse to single underscores.
  have s2 : collapseRuns (fun c => isJsWs c || c = '-') '_'
      (joinSep [' '] ((w0 :: wr).map (fun w => '_' :: w))) =
      joinSep ['_'] ((w0 :: wr).map (fun w => '_' :: w)) := by
    apply collapse_joinSep (by simp) (by decide)
    intro b hbm
    obtain ⟨w, hw, rfl⟩ := List.mem_map.mp hbm
    refine ⟨by simp, ?_⟩
    intro c hc
    rcases List.mem_cons.mp hc with rfl | hc2
    · decide
    · obtain ⟨x, xt, rfl, hx, hxt⟩ := capWord_parts (hws w hw)
      rcases List.mem_cons.mp hc2 with rfl | hc3
      · have hfacts := letter_not_sep (Or.inl hx)
        simp [hfacts.1, hfacts.2.1]
      · have hfacts := letter_not_sep (Or.inr (hxt c hc3))
        simp [hfacts.1, hfacts.2.1]
  rw [s2]
  -- Stage 3: lower-casing distributes over the join.
  have hlowund : lowerC '_' = '_' := by decide
  have s3 : (joinSep ['_'] ((w0 :: wr).map (fun w => '_' :: w))).map lowerC =
      joinSep ['_'] (((w0 :: wr).map (List.map lowerC)).map (fun w => '_' :: w)) := by
    rw [map_joinSep]
    have hsep : ['_'].map lowerC = ['_'] := by decide
    rw [hsep, List.map_map, List.map_map]
    congr 1
  rw [s3]
  -- Stage 4: the single leading underscore is removed.
  have s4 : dropOneLeading '_'
      (joinSep ['_'] (((w0 :: wr).map (List.map lowerC)).map (fun w => '_' :: w))) =
      joinSep ['_', '_'] ((w0 :: wr).map (List.map lowerC)) := by
    rw [joinSep_marked '_' '_' _ (by simp)]
    simp [dropOneLeading]
  rw [s4]
  -- Stage 5: underscore runs collapse to single underscores.
  apply collapse_joinSep (by simp) (by decide)
  intro b hbm
  obtain ⟨w, hw, rfl⟩ := List.mem_map.mp hbm
  have hf := lowered_word_facts (hws w hw)
  refine ⟨hf.1, ?_⟩
  intro c hc
  exact (letter_not_sep (Or.inr (hf.2 c hc))).2.2.1

/-- `toTitleCase` on an underscore join of lower-cased capitalised words
    restores the Title-Case join. -/
theorem toTitleL_snakeform (ws : List (List Char))
    (hws : ∀ w ∈ ws, isCapWord w = true) :
    toTitleL (joinSep ['_'] (ws.map (List.map lowerC))) = joinSep [' '] ws := by
  cases hws0 : ws with
  | nil => rfl
  | cons w0 wr =>
  subst hws0
  unfold toTitleL
  have hwordfacts : ∀ b ∈ (w0 :: wr).map (List.map lowerC),
      b ≠ [] ∧ ∀ c ∈ b, isLowerAZ c = true := by
    intro b hbm
    obtain ⟨w, hw, rfl⟩ := List.mem_map.mp hbm
    exact lowered_word_facts (hws w hw)
  -- Stage 1: underscore/hyphen runs become single spaces.
  have t1 : collapseRuns (fun c => c = '_' || c = '-') ' '
      (joinSep ['_'] ((w0 :: wr).map (List.map lowerC))) =
      joinSep [' '] ((w0 :: wr).map (List.map lowerC)) := by
    apply collapse_joinSep (by simp) (by decide)
    intro b hbm
    have hf := hwordfacts b hbm
    refine ⟨hf.1, ?_⟩
    intro c hc
    have hfacts := letter_not_sep (Or.inr (hf.2 c hc))
    simp [hfacts.2.1, hfacts.2.2.1]
  rw [t1]
  -- Stage 2: the first character of each word is capitalised back.
  have t2 : capWordStarts false (joinSep [' '] ((w0 :: wr).map (List.map lowerC))) =
      joinSep [' '] (((w0 :: wr).map (List.map lowerC)).map capFirst) := by
    apply capWordStarts_joinSep
    intro b hbm
    have hf := hwordfacts b hbm
    refine ⟨hf.1, ?_⟩
    intro c hc
    exact (letter_not_sep (Or.inr (hf.2 c hc))).2.2.2
  rw [t2]
  -- The capitalised lower-cased words are the original words.
  have t3 : ((w0 :: wr).map (List.map lowerC)).map capFirst = w0 :: wr := by
    rw [List.map_map]
    have : (w0 :: wr).map (capFirst ∘ List.map lowerC) = (w0 :: wr).map id := by
      apply List.map_congr_left
      intro w hw
      obtain ⟨x, xt, rfl, hx, hxt⟩ := capWord_parts (hws w hw)
      show capFirst (List.map lowerC (x :: xt)) = x :: xt
      rw [List.map_cons, map_lowerC_fix hxt]
      show upperC (lowerC x) :: xt = x :: xt
      rw [(lowerC_of_upper hx).2.2]
    rw [this, List.map_id]
  rw [t3]
  -- Stage 3: whitespace runs collapse (already single spaces).
  have t4 : collapseRuns isJsWs ' ' (joinSep [' '] (w0 :: wr)) =
      joinSep [' '] (w0 :: wr) := by
    apply collapse_joinSep (by simp) (by decide)
    intro b hbm
    obtain ⟨x, xt, rfl, hx, hxt⟩ := capWord_parts (hws b hbm)
    refine ⟨by simp, ?_⟩
    intro c hc
    rcases List.mem_cons.mp hc with rfl | hc2
    · exact (letter_not_sep (Or.inl hx)).1
    · exact (letter_not_sep (Or.inr (hxt c hc2))).1
  rw [t4]
  -- Stage 4: nothing to trim — the join starts and ends with letters.
  apply trimChars_of_ends
  · intro c hc
    obtain ⟨x, xt, rfl, hx, _⟩ := capWord_parts (hws w0 (List.mem_cons_self w0 wr))
    rw [joinSep_head?] at hc
    cases hc
    exact (letter_not_sep (Or.inl hx)).1
  · intro c hc
    obtain ⟨b, hb⟩ : ∃ b, (w0 :: wr).getLast? = some b := by
      cases hb2 : (w0 :: wr).getLast? with
      | none => exact absurd (List.getLast?_eq_none_iff.mp hb2) (by simp)
      | some b => exact ⟨b, rfl⟩
    have hbmem : b ∈ w0 :: wr := List.mem_of_mem_getLast? hb
    have hbcap := capWord_parts (hws b hbmem)
    obtain ⟨x, xt, rfl, hx, hxt⟩ := hbcap
    rw [joinSep_getLast? (w0 :: wr) (x :: xt)
      (fun w hw => by
        obtain ⟨y, yt, rfl, _, _⟩ := capWord_parts (hws w hw)
        simp) hb] at hc
    have hcm : c ∈ x :: xt := List.mem_of_mem_getLast? hc
    rcases List.mem_cons.mp hcm with rfl | hc2
    · exact (letter_not_sep (Or.inl hx)).1
    · exact (letter_not_sep (Or.inr (hxt c hc2))).1

/-- C8 counterexample: `"a"` consists only of lowercase alphabetic
    characters (trivially, being a single letter), yet
    `toTitleCase (toSnakeCase "a")` is `"A"`, not `"a"` —
    `toTitleCase` capitalises the first letter of every word, so the
    round-trip is not the identity on lowercase inputs. -/
theorem title_snake_roundtrip_counterexample :
    ("a".data.all (fun c => isLowerAZ c || c = ' ' || c = '_')) = true ∧
    toTitleCase (toSnakeCase "a") = "A" ∧ ("A" : String) ≠ "a" :=
  ⟨by decide, by decide, by decide⟩

/-- C8 as amended: the snake/Title round-trip is the identity on
    Title-Case strings — for every string that is a join of capitalised
    words (an uppercase ASCII letter followed by lowercase ASCII letters)
    separated by single spaces, `toTitleCase (toSnakeCase x) = x`, and the
    equality is stable under repeated round-trips. -/
theorem title_snake_roundtrip_titlecase (s : String) (ws : List (List Char))
    (hws : ∀ w ∈ ws, isCapWord w = true) (hs : s.data = joinSep [' '] ws) :
    toTitleCase (toSnakeCase s) = s ∧
    toTitleCase (toSnakeCase (toTitleCase (toSnakeCase s))) =
      toTitleCase (toSnakeCase s) := by
  have h2 : toTitleL (toSnakeL s.data) = s.data := by
    rw [hs, toSnakeL_titleform ws hws, toTitleL_snakeform ws hws]
  have h1 : toTitleCase (toSnakeCase s) = s := by
    show String.mk (toTitleL (toSnakeL s.data)) = s
    rw [h2]
  refine ⟨h1, ?_⟩
  rw [h1]
  exact h1

/-- Witness for the amended C8 at `"My Project Name"` (the input of the
    repository's own round-trip test). -/
theorem title_snake_roundtrip_titlecase_witness :
    toTitleCase (toSnakeCase "My Project Name") = "My Project Name" ∧
    toTitleCase (toSnakeCase (toTitleCase (toSnakeCase "My Project Name"))) =
      toTitleCase (toSnakeCase "My Project Name") :=
  title_snake_roundtrip_titlecase "My Project Name"
    [['M', 'y'], ['P', 'r', 'o', 'j', 'e', 'c', 't'], ['N', 'a', 'm', 'e']]
    (by decide) (by decide)

end FolderTagSync
